import Mathlib

/-!
# Verification of the EEG signal-processing pipeline

Shallow embedding of the signal-processing core of the repository:
signal synthesis (`signal-generator.ts`), digital filtering and spectral
analysis (`signal-processing.ts`), the rule-based emotion classifier
(`emotion-classifier.ts`), and the two artifact-removal strategies
(`ica-processing.ts`).

Modelling conventions:
* JavaScript numbers are modelled as exact rationals (`ℚ`); floating-point
  rounding is idealised away, but the IEEE special values `NaN`/`±Infinity`
  are modelled faithfully by the type `JSNum` on the code paths where a
  division by zero can produce them (the rule-based classifier).
* The transcendental functions of the JavaScript `Math` object are
  abstracted as an explicit record `MathOps` of rational functions; theorems
  assume only the properties of these functions they actually need.
* `Math.random()` is modelled as an explicit injectable stream `ℕ → ℚ`,
  and the eigendecomposition / pseudo-inverse of the external `ml-matrix`
  library are uninterpreted oracle parameters.
-/

/-- Abstraction of the JavaScript `Math` object: the transcendental
primitives used by the pipeline, as exact rational functions. -/
structure MathOps where
  sqrt : ℚ → ℚ
  exp : ℚ → ℚ
  tanh : ℚ → ℚ
  sin : ℚ → ℚ
  cos : ℚ → ℚ
  tan : ℚ → ℚ
  pi : ℚ

/-- A JavaScript number: either `NaN`, `±Infinity`, or a finite value
(modelled as an exact rational). -/
inductive JSNum where
  | nan : JSNum
  | inf : JSNum
  | ninf : JSNum
  | fin : ℚ → JSNum
deriving DecidableEq

/-- JavaScript addition on `JSNum` (IEEE-754 special-value semantics). -/
def jadd : JSNum → JSNum → JSNum
  | .nan, _ => .nan
  | _, .nan => .nan
  | .inf, .ninf => .nan
  | .ninf, .inf => .nan
  | .inf, _ => .inf
  | _, .inf => .inf
  | .ninf, _ => .ninf
  | _, .ninf => .ninf
  | .fin a, .fin b => .fin (a + b)

/-- JavaScript negation on `JSNum`. -/
def jneg : JSNum → JSNum
  | .nan => .nan
  | .inf => .ninf
  | .ninf => .inf
  | .fin a => .fin (-a)

/-- JavaScript subtraction on `JSNum`. -/
def jsub (a b : JSNum) : JSNum := jadd a (jneg b)

/-- JavaScript multiplication on `JSNum`. -/
def jmul : JSNum → JSNum → JSNum
  | .nan, _ => .nan
  | _, .nan => .nan
  | .inf, .inf => .inf
  | .inf, .ninf => .ninf
  | .ninf, .inf => .ninf
  | .ninf, .ninf => .inf
  | .inf, .fin b => if b = 0 then .nan else if 0 < b then .inf else .ninf
  | .fin a, .inf => if a = 0 then .nan else if 0 < a then .inf else .ninf
  | .ninf, .fin b => if b = 0 then .nan else if 0 < b then .ninf else .inf
  | .fin a, .ninf => if a = 0 then .nan else if 0 < a then .ninf else .inf
  | .fin a, .fin b => .fin (a * b)

/-- JavaScript division on `JSNum`; in particular `0/0 = NaN` and
`x/0 = ±Infinity` for finite nonzero `x`. -/
def jdiv : JSNum → JSNum → JSNum
  | .nan, _ => .nan
  | _, .nan => .nan
  | .inf, .inf => .nan
  | .inf, .ninf => .nan
  | .ninf, .inf => .nan
  | .ninf, .ninf => .nan
  | .inf, .fin b => if 0 ≤ b then .inf else .ninf
  | .ninf, .fin b => if 0 ≤ b then .ninf else .inf
  | .fin _, .inf => .fin 0
  | .fin _, .ninf => .fin 0
  | .fin a, .fin b =>
      if b = 0 then (if a = 0 then .nan else if 0 < a then .inf else .ninf)
      else .fin (a / b)

/-- JavaScript strict less-than on `JSNum`: any comparison with `NaN`
is false. -/
def jlt : JSNum → JSNum → Bool
  | .nan, _ => false
  | _, .nan => false
  | .ninf, .ninf => false
  | .ninf, _ => true
  | .inf, _ => false
  | .fin _, .inf => true
  | .fin _, .ninf => false
  | .fin a, .fin b => decide (a < b)

/-- `Math.exp` lifted to `JSNum`: `exp NaN = NaN`, `exp ∞ = ∞`,
`exp (-∞) = 0`. -/
def jexp (M : MathOps) : JSNum → JSNum
  | .nan => .nan
  | .inf => .inf
  | .ninf => .fin 0
  | .fin x => .fin (M.exp x)

/-- Mean of a list of samples, `reduce((a,b) => a+b, 0) / n` in the
source (with the convention `q / 0 = 0` of `ℚ` for the empty list). -/
def listMean (l : List ℚ) : ℚ := l.sum / (l.length : ℚ)

/-- Return type of both artifact-removal strategies
(`ICAResult` in `ica-processing.ts`). -/
structure ICAResult where
  cleanSignal : List ℚ
  components : List (List ℚ)
  removedArtifacts : List ℚ
  artifactIndices : List ℕ
deriving DecidableEq

/-- Population standard deviation used by `removeArtifactsSimple`:
`Math.sqrt(signal.reduce((sum, v) => sum + Math.pow(v - mean, 2), 0) / n)`. -/
def simpleStd (M : MathOps) (signal : List ℚ) : ℚ :=
  M.sqrt ((signal.map (fun v => (v - listMean signal) ^ 2)).sum / (signal.length : ℚ))

/-- The z-score the statistical strategy computes for sample `i`:
`Math.abs(signal[i] - mean) / std`. -/
def simpleDev (M : MathOps) (signal : List ℚ) (i : ℕ) : ℚ :=
  |signal.getD i 0 - listMean signal| / simpleStd M signal

/-- Value of `cleanSignal[i]` in `removeArtifactsSimple`: the linear
interpolation of the neighbours if flagged, the original sample otherwise. -/
def simpleCleanAt (M : MathOps) (signal : List ℚ) (threshold : ℚ) (i : ℕ) : ℚ :=
  if threshold < simpleDev M signal i then
    ((if 0 < i then signal.getD (i - 1) 0 else listMean signal) +
      (if i < signal.length - 1 then signal.getD (i + 1) 0 else listMean signal)) / 2
  else signal.getD i 0

/-- Value of `removedArtifacts[i]` in `removeArtifactsSimple`. -/
def simpleRemovedAt (M : MathOps) (signal : List ℚ) (threshold : ℚ) (i : ℕ) : ℚ :=
  if threshold < simpleDev M signal i then
    signal.getD i 0 - simpleCleanAt M signal threshold i
  else 0

/-- One iteration of the loop body of `removeArtifactsSimple`, pushing onto
the accumulated `(cleanSignal, removedArtifacts, artifactIndices)`. -/
def simpleStep (M : MathOps) (signal : List ℚ) (threshold : ℚ)
    (acc : List ℚ × List ℚ × List ℕ) (i : ℕ) : List ℚ × List ℚ × List ℕ :=
  if threshold < simpleDev M signal i then
    ((acc.1 ++ [simpleCleanAt M signal threshold i],
      acc.2.1 ++ [signal.getD i 0 - simpleCleanAt M signal threshold i],
      acc.2.2 ++ [i]))
  else
    ((acc.1 ++ [signal.getD i 0], acc.2.1 ++ [(0 : ℚ)], acc.2.2))

/-- `removeArtifactsSimple` from `ica-processing.ts`: statistical
outlier interpolation (the threshold defaults to `3` at call sites). -/
def removeArtifactsSimple (M : MathOps) (signal : List ℚ) (threshold : ℚ) : ICAResult :=
  let r := (List.range signal.length).foldl (simpleStep M signal threshold) ([], [], [])
  ⟨r.1, [signal], r.2.1, r.2.2⟩

lemma simpleStep_foldl (M : MathOps) (signal : List ℚ) (threshold : ℚ)
    (is : List ℕ) (a b : List ℚ) (c : List ℕ) :
    is.foldl (simpleStep M signal threshold) (a, b, c) =
      (a ++ is.map (simpleCleanAt M signal threshold),
        b ++ is.map (simpleRemovedAt M signal threshold),
        c ++ is.filter (fun i => decide (threshold < simpleDev M signal i))) := by
  induction is generalizing a b c with
  | nil => simp
  | cons i is ih =>
      simp only [List.foldl_cons, List.map_cons, List.filter_cons]
      rw [ih]
      by_cases h : threshold < simpleDev M signal i
      · simp [simpleStep, simpleRemovedAt, h]
      · simp [simpleStep, simpleRemovedAt, h, simpleCleanAt]

lemma removeArtifactsSimple_clean_eq (M : MathOps) (signal : List ℚ) (threshold : ℚ) :
    (removeArtifactsSimple M signal threshold).cleanSignal =
      (List.range signal.length).map (simpleCleanAt M signal threshold) := by
  simp [removeArtifactsSimple, simpleStep_foldl]

lemma removeArtifactsSimple_removed_eq (M : MathOps) (signal : List ℚ) (threshold : ℚ) :
    (removeArtifactsSimple M signal threshold).removedArtifacts =
      (List.range signal.length).map (simpleRemovedAt M signal threshold) := by
  simp [removeArtifactsSimple, simpleStep_foldl]

lemma removeArtifactsSimple_indices_eq (M : MathOps) (signal : List ℚ) (threshold : ℚ) :
    (removeArtifactsSimple M signal threshold).artifactIndices =
      (List.range signal.length).filter
        (fun i => decide (threshold < simpleDev M signal i)) := by
  simp [removeArtifactsSimple, simpleStep_foldl]

lemma map_getD_range (l : List ℚ) :
    (List.range l.length).map (fun i => l.getD i 0) = l := by
  induction l with
  | nil => simp
  | cons x xs ih =>
      rw [List.length_cons, List.range_succ_eq_map, List.map_cons, List.map_map]
      simp only [List.getD_cons_zero, Function.comp_def, List.getD_cons_succ]
      rw [ih]

/-- C1: for every input signal and threshold, the statistical strategy
returns `cleanSignal` and `removedArtifacts` with
`cleanSignal[i] + removedArtifacts[i] = signal[i]` exactly at every
sample index. -/
theorem removeArtifactsSimple_reconstruction (M : MathOps) (signal : List ℚ)
    (threshold : ℚ) :
    List.zipWith (· + ·) (removeArtifactsSimple M signal threshold).cleanSignal
      (removeArtifactsSimple M signal threshold).removedArtifacts = signal := by
  rw [removeArtifactsSimple_clean_eq, removeArtifactsSimple_removed_eq]
  rw [List.zipWith_map_left, List.zipWith_map_right, List.zipWith_same]
  have : ∀ i : ℕ,
      simpleCleanAt M signal threshold i + simpleRemovedAt M signal threshold i =
        signal.getD i 0 := by
    intro i
    by_cases h : threshold < simpleDev M signal i
    · simp [simpleCleanAt, simpleRemovedAt, h]
    · simp [simpleCleanAt, simpleRemovedAt, h]
  calc (List.range signal.length).map
        (fun i => simpleCleanAt M signal threshold i + simpleRemovedAt M signal threshold i)
      = (List.range signal.length).map (fun i => signal.getD i 0) := by
        exact List.map_congr_left (fun i _ => this i)
    _ = signal := map_getD_range signal

/-- C10: every sample whose z-score (as the code computes it) does not
exceed the threshold is passed through unchanged: `cleanSignal[i] = signal[i]`,
`removedArtifacts[i] = 0`, and `i` is not reported in `artifactIndices`. -/
theorem removeArtifactsSimple_passthrough (M : MathOps) (signal : List ℚ)
    (threshold : ℚ) (i : ℕ) (hi : i < signal.length)
    (h : simpleDev M signal i ≤ threshold) :
    (removeArtifactsSimple M signal threshold).cleanSignal.getD i 0 = signal.getD i 0 ∧
      (removeArtifactsSimple M signal threshold).removedArtifacts.getD i 0 = 0 ∧
      i ∉ (removeArtifactsSimple M signal threshold).artifactIndices := by
  have hnot : ¬ threshold < simpleDev M signal i := not_lt.mpr h
  refine ⟨?_, ?_, ?_⟩
  · rw [removeArtifactsSimple_clean_eq]
    have hlen : i < ((List.range signal.length).map
        (simpleCleanAt M signal threshold)).length := by simpa using hi
    rw [List.getD_eq_getElem _ _ hlen]
    simp [simpleCleanAt, hnot]
  · rw [removeArtifactsSimple_removed_eq]
    have hlen : i < ((List.range signal.length).map
        (simpleRemovedAt M signal threshold)).length := by simpa using hi
    rw [List.getD_eq_getElem _ _ hlen]
    simp [simpleRemovedAt, hnot]
  · rw [removeArtifactsSimple_indices_eq]
    simp only [List.mem_filter, decide_eq_true_eq]
    rintro ⟨-, hc⟩
    exact hnot hc

/-- A concrete computable instance of the `Math` abstraction used to
evaluate witnesses (`sqrt 0 = 0`, `exp` positive, `tanh 0 = 0`). -/
def mTest : MathOps :=
  ⟨fun q => if q = 0 then 0 else 1, fun _ => 1, fun _ => 0, fun _ => 0,
    fun _ => 1, fun _ => 0, 355 / 113⟩

/-- Witness for C10 at a concrete input: in the signal `[1, 2, 3]` with
threshold `3`, sample `0` has z-score within the threshold and is passed
through unchanged. -/
theorem removeArtifactsSimple_passthrough_witness :
    (removeArtifactsSimple mTest [1, 2, 3] 3).cleanSignal.getD 0 0 =
        ([1, 2, 3] : List ℚ).getD 0 0 ∧
      (removeArtifactsSimple mTest [1, 2, 3] 3).removedArtifacts.getD 0 0 = 0 ∧
      0 ∉ (removeArtifactsSimple mTest [1, 2, 3] 3).artifactIndices :=
  removeArtifactsSimple_passthrough mTest [1, 2, 3] 3 0 (by decide)
    (by norm_num [simpleDev, simpleStd, listMean, mTest])

/-- Real part accumulated by the DFT loop of `computeFFT`:
`real += signal[t] * Math.cos((2 * Math.PI * k * t) / n)`. -/
def dftRe (M : MathOps) (signal : List ℚ) (k : ℕ) : ℚ :=
  ((List.range signal.length).map
    (fun t => signal.getD t 0 *
      M.cos (2 * M.pi * (k : ℚ) * (t : ℚ) / (signal.length : ℚ)))).sum

/-- Imaginary part accumulated by the DFT loop of `computeFFT`
(the loop subtracts, `imag -= signal[t] * Math.sin(angle)`). -/
def dftIm (M : MathOps) (signal : List ℚ) (k : ℕ) : ℚ :=
  -((List.range signal.length).map
    (fun t => signal.getD t 0 *
      M.sin (2 * M.pi * (k : ℚ) * (t : ℚ) / (signal.length : ℚ)))).sum

/-- `computeFFT` from `signal-processing.ts`: a direct DFT over the first
`⌊n/2⌋` positive-frequency bins, returning `(frequencies, magnitudes)` with
`frequencies[k] = k * sampleRate / n` and
`magnitudes[k] = Math.sqrt(real² + imag²) / n`. -/
def computeFFT (M : MathOps) (signal : List ℚ) (sampleRate : ℚ) :
    List ℚ × List ℚ :=
  ((List.range (signal.length / 2)).map
      (fun (k : ℕ) => (k : ℚ) * sampleRate / (signal.length : ℚ)),
    (List.range (signal.length / 2)).map
      (fun k =>
        M.sqrt (dftRe M signal k ^ 2 + dftIm M signal k ^ 2) / (signal.length : ℚ)))

/-- The five canonical band powers (`BandPowers` in `signal-processing.ts`). -/
structure BandPowers where
  delta : ℚ
  theta : ℚ
  alpha : ℚ
  beta : ℚ
  gamma : ℚ
deriving DecidableEq

/-- Accumulator of the binning loop in `calculateBandPowers`: running power
sums and bin counts for the five bands. -/
structure BandAcc where
  delta : ℚ
  theta : ℚ
  alpha : ℚ
  beta : ℚ
  gamma : ℚ
  dc : ℕ
  tc : ℕ
  ac : ℕ
  bc : ℕ
  gc : ℕ

/-- One iteration of the binning loop of `calculateBandPowers`: the bin's
squared magnitude is added to the band its frequency falls in
(`if/else if` chain of the source, gamma closed at 45 Hz). -/
def bandStep (freqs mags : List ℚ) (acc : BandAcc) (i : ℕ) : BandAcc :=
  let freq := freqs.getD i 0
  let power := mags.getD i 0 ^ 2
  if 1 / 2 ≤ freq ∧ freq < 4 then
    ⟨acc.delta + power, acc.theta, acc.alpha, acc.beta, acc.gamma,
      acc.dc + 1, acc.tc, acc.ac, acc.bc, acc.gc⟩
  else if 4 ≤ freq ∧ freq < 8 then
    ⟨acc.delta, acc.theta + power, acc.alpha, acc.beta, acc.gamma,
      acc.dc, acc.tc + 1, acc.ac, acc.bc, acc.gc⟩
  else if 8 ≤ freq ∧ freq < 13 then
    ⟨acc.delta, acc.theta, acc.alpha + power, acc.beta, acc.gamma,
      acc.dc, acc.tc, acc.ac + 1, acc.bc, acc.gc⟩
  else if 13 ≤ freq ∧ freq < 30 then
    ⟨acc.delta, acc.theta, acc.alpha, acc.beta + power, acc.gamma,
      acc.dc, acc.tc, acc.ac, acc.bc + 1, acc.gc⟩
  else if 30 ≤ freq ∧ freq ≤ 45 then
    ⟨acc.delta, acc.theta, acc.alpha, acc.beta, acc.gamma + power,
      acc.dc, acc.tc, acc.ac, acc.bc, acc.gc + 1⟩
  else acc

/-- `calculateBandPowers` from `signal-processing.ts`: bins the DFT powers
into the five bands and normalises each band by its bin count
(`count > 0 ? sum / count : 0`). -/
def calculateBandPowers (M : MathOps) (signal : List ℚ) (sampleRate : ℚ) :
    BandPowers :=
  let fm := computeFFT M signal sampleRate
  let acc := (List.range fm.1.length).foldl (bandStep fm.1 fm.2)
    ⟨0, 0, 0, 0, 0, 0, 0, 0, 0, 0⟩
  ⟨if 0 < acc.dc then acc.delta / (acc.dc : ℚ) else 0,
    if 0 < acc.tc then acc.theta / (acc.tc : ℚ) else 0,
    if 0 < acc.ac then acc.alpha / (acc.ac : ℚ) else 0,
    if 0 < acc.bc then acc.beta / (acc.bc : ℚ) else 0,
    if 0 < acc.gc then acc.gamma / (acc.gc : ℚ) else 0⟩

/-- Membership of a frequency in the delta band, `[0.5, 4)`. -/
def pDelta (f : ℚ) : Bool := decide (1 / 2 ≤ f ∧ f < 4)

/-- Membership of a frequency in the theta band, `[4, 8)`. -/
def pTheta (f : ℚ) : Bool := decide (4 ≤ f ∧ f < 8)

/-- Membership of a frequency in the alpha band, `[8, 13)`. -/
def pAlpha (f : ℚ) : Bool := decide (8 ≤ f ∧ f < 13)

/-- Membership of a frequency in the beta band, `[13, 30)`. -/
def pBeta (f : ℚ) : Bool := decide (13 ≤ f ∧ f < 30)

/-- Membership of a frequency in the gamma band, `[30, 45]`
(inclusive upper bound). -/
def pGamma (f : ℚ) : Bool := decide (30 ≤ f ∧ f ≤ 45)

/-- Spec-side definition: the indices of the DFT bins whose frequency
satisfies a band predicate. -/
def bandBins (freqs : List ℚ) (p : ℚ → Bool) : List ℕ :=
  (List.range freqs.length).filter (fun i => p (freqs.getD i 0))

/-- Spec-side definition, following the specification's words: the band
power is the mean of the squared magnitudes of the bins falling in the
band, and `0` when no bin falls in it. -/
def bandMeanSpec (freqs mags : List ℚ) (p : ℚ → Bool) : ℚ :=
  if (bandBins freqs p).length = 0 then 0
  else ((bandBins freqs p).map (fun i => mags.getD i 0 ^ 2)).sum /
    ((bandBins freqs p).length : ℚ)

/-- Reachability predicate of the `else if` theta branch of the binning
loop: the bin reached this branch and its condition holds. -/
def qTheta (f : ℚ) : Bool := !pDelta f && pTheta f

/-- Reachability predicate of the `else if` alpha branch. -/
def qAlpha (f : ℚ) : Bool := !pDelta f && !pTheta f && pAlpha f

/-- Reachability predicate of the `else if` beta branch. -/
def qBeta (f : ℚ) : Bool := !pDelta f && !pTheta f && !pAlpha f && pBeta f

/-- Reachability predicate of the `else if` gamma branch. -/
def qGamma (f : ℚ) : Bool := !pDelta f && !pTheta f && !pAlpha f && !pBeta f && pGamma f

lemma bandStep_foldl (freqs mags : List ℚ) (is : List ℕ) (acc : BandAcc) :
    is.foldl (bandStep freqs mags) acc =
      ⟨acc.delta + ((is.filter (fun i => pDelta (freqs.getD i 0))).map
          (fun i => mags.getD i 0 ^ 2)).sum,
        acc.theta + ((is.filter (fun i => qTheta (freqs.getD i 0))).map
          (fun i => mags.getD i 0 ^ 2)).sum,
        acc.alpha + ((is.filter (fun i => qAlpha (freqs.getD i 0))).map
          (fun i => mags.getD i 0 ^ 2)).sum,
        acc.beta + ((is.filter (fun i => qBeta (freqs.getD i 0))).map
          (fun i => mags.getD i 0 ^ 2)).sum,
        acc.gamma + ((is.filter (fun i => qGamma (freqs.getD i 0))).map
          (fun i => mags.getD i 0 ^ 2)).sum,
        acc.dc + (is.filter (fun i => pDelta (freqs.getD i 0))).length,
        acc.tc + (is.filter (fun i => qTheta (freqs.getD i 0))).length,
        acc.ac + (is.filter (fun i => qAlpha (freqs.getD i 0))).length,
        acc.bc + (is.filter (fun i => qBeta (freqs.getD i 0))).length,
        acc.gc + (is.filter (fun i => qGamma (freqs.getD i 0))).length⟩ := by
  induction is generalizing acc with
  | nil => simp
  | cons i is ih =>
      rw [List.foldl_cons, ih]
      simp only [bandStep]
      split_ifs with h1 h2 h3 h4 h5
      · have e1 : pDelta (freqs[i]?.getD 0) = true := by
          rw [← List.getD_eq_getElem?_getD]; exact decide_eq_true h1
        have e2 : qTheta (freqs[i]?.getD 0) = false := by simp [qTheta, e1]
        have e3 : qAlpha (freqs[i]?.getD 0) = false := by simp [qAlpha, e1]
        have e4 : qBeta (freqs[i]?.getD 0) = false := by simp [qBeta, e1]
        have e5 : qGamma (freqs[i]?.getD 0) = false := by simp [qGamma, e1]
        simp [List.filter_cons, e1, e2, e3, e4, e5, BandAcc.mk.injEq,
          add_assoc, add_comm, add_left_comm]
      · have e1 : pDelta (freqs[i]?.getD 0) = false := by
          rw [← List.getD_eq_getElem?_getD]; exact decide_eq_false h1
        have eT : pTheta (freqs[i]?.getD 0) = true := by
          rw [← List.getD_eq_getElem?_getD]; exact decide_eq_true h2
        have e2 : qTheta (freqs[i]?.getD 0) = true := by simp [qTheta, e1, eT]
        have e3 : qAlpha (freqs[i]?.getD 0) = false := by simp [qAlpha, eT]
        have e4 : qBeta (freqs[i]?.getD 0) = false := by simp [qBeta, eT]
        have e5 : qGamma (freqs[i]?.getD 0) = false := by simp [qGamma, eT]
        simp [List.filter_cons, e1, e2, e3, e4, e5, BandAcc.mk.injEq,
          add_assoc, add_comm, add_left_comm]
      · have e1 : pDelta (freqs[i]?.getD 0) = false := by
          rw [← List.getD_eq_getElem?_getD]; exact decide_eq_false h1
        have eT : pTheta (freqs[i]?.getD 0) = false := by
          rw [← List.getD_eq_getElem?_getD]; exact decide_eq_false h2
        have eA : pAlpha (freqs[i]?.getD 0) = true := by
          rw [← List.getD_eq_getElem?_getD]; exact decide_eq_true h3
        have e2 : qTheta (freqs[i]?.getD 0) = false := by simp [qTheta, eT]
        have e3 : qAlpha (freqs[i]?.getD 0) = true := by simp [qAlpha, e1, eT, eA]
        have e4 : qBeta (freqs[i]?.getD 0) = false := by simp [qBeta, eA]
        have e5 : qGamma (freqs[i]?.getD 0) = false := by simp [qGamma, eA]
        simp [List.filter_cons, e1, e2, e3, e4, e5, BandAcc.mk.injEq,
          add_assoc, add_comm, add_left_comm]
      · have e1 : pDelta (freqs[i]?.getD 0) = false := by
          rw [← List.getD_eq_getElem?_getD]; exact decide_eq_false h1
        have eT : pTheta (freqs[i]?.getD 0) = false := by
          rw [← List.getD_eq_getElem?_getD]; exact decide_eq_false h2
        have eA : pAlpha (freqs[i]?.getD 0) = false := by
          rw [← List.getD_eq_getElem?_getD]; exact decide_eq_false h3
        have eB : pBeta (freqs[i]?.getD 0) = true := by
          rw [← List.getD_eq_getElem?_getD]; exact decide_eq_true h4
        have e2 : qTheta (freqs[i]?.getD 0) = false := by simp [qTheta, eT]
        have e3 : qAlpha (freqs[i]?.getD 0) = false := by simp [qAlpha, eA]
        have e4 : qBeta (freqs[i]?.getD 0) = true := by simp [qBeta, e1, eT, eA, eB]
        have e5 : qGamma (freqs[i]?.getD 0) = false := by simp [qGamma, eB]
        simp [List.filter_cons, e1, e2, e3, e4, e5, BandAcc.mk.injEq,
          add_assoc, add_comm, add_left_comm]
      · have e1 : pDelta (freqs[i]?.getD 0) = false := by
          rw [← List.getD_eq_getElem?_getD]; exact decide_eq_false h1
        have eT : pTheta (freqs[i]?.getD 0) = false := by
          rw [← List.getD_eq_getElem?_getD]; exact decide_eq_false h2
        have eA : pAlpha (freqs[i]?.getD 0) = false := by
          rw [← List.getD_eq_getElem?_getD]; exact decide_eq_false h3
        have eB : pBeta (freqs[i]?.getD 0) = false := by
          rw [← List.getD_eq_getElem?_getD]; exact decide_eq_false h4
        have eG : pGamma (freqs[i]?.getD 0) = true := by
          rw [← List.getD_eq_getElem?_getD]; exact decide_eq_true h5
        have e2 : qTheta (freqs[i]?.getD 0) = false := by simp [qTheta, eT]
        have e3 : qAlpha (freqs[i]?.getD 0) = false := by simp [qAlpha, eA]
        have e4 : qBeta (freqs[i]?.getD 0) = false := by simp [qBeta, eB]
        have e5 : qGamma (freqs[i]?.getD 0) = true := by
          simp [qGamma, e1, eT, eA, eB, eG]
        simp [List.filter_cons, e1, e2, e3, e4, e5, BandAcc.mk.injEq,
          add_assoc, add_comm, add_left_comm]
      · have e1 : pDelta (freqs[i]?.getD 0) = false := by
          rw [← List.getD_eq_getElem?_getD]; exact decide_eq_false h1
        have eT : pTheta (freqs[i]?.getD 0) = false := by
          rw [← List.getD_eq_getElem?_getD]; exact decide_eq_false h2
        have eA : pAlpha (freqs[i]?.getD 0) = false := by
          rw [← List.getD_eq_getElem?_getD]; exact decide_eq_false h3
        have eB : pBeta (freqs[i]?.getD 0) = false := by
          rw [← List.getD_eq_getElem?_getD]; exact decide_eq_false h4
        have eG : pGamma (freqs[i]?.getD 0) = false := by
          rw [← List.getD_eq_getElem?_getD]; exact decide_eq_false h5
        have e2 : qTheta (freqs[i]?.getD 0) = false := by simp [qTheta, eT]
        have e3 : qAlpha (freqs[i]?.getD 0) = false := by simp [qAlpha, eA]
        have e4 : qBeta (freqs[i]?.getD 0) = false := by simp [qBeta, eB]
        have e5 : qGamma (freqs[i]?.getD 0) = false := by simp [qGamma, eG]
        simp [List.filter_cons, e1, e2, e3, e4, e5, BandAcc.mk.injEq,
          add_assoc, add_comm, add_left_comm]

lemma qTheta_eq_pTheta : qTheta = pTheta := by
  funext f
  by_cases h2 : 4 ≤ f ∧ f < 8
  · have e1 : pDelta f = false := decide_eq_false fun hc => by linarith [h2.1, hc.2]
    have e2 : pTheta f = true := decide_eq_true h2
    simp [qTheta, e1, e2]
  · simp [qTheta, pTheta, h2]

lemma qAlpha_eq_pAlpha : qAlpha = pAlpha := by
  funext f
  by_cases h3 : 8 ≤ f ∧ f < 13
  · have e1 : pDelta f = false := decide_eq_false fun hc => by linarith [h3.1, hc.2]
    have e2 : pTheta f = false := decide_eq_false fun hc => by linarith [h3.1, hc.2]
    have e3 : pAlpha f = true := decide_eq_true h3
    simp [qAlpha, e1, e2, e3]
  · simp [qAlpha, pAlpha, h3]

lemma qBeta_eq_pBeta : qBeta = pBeta := by
  funext f
  by_cases h4 : 13 ≤ f ∧ f < 30
  · have e1 : pDelta f = false := decide_eq_false fun hc => by linarith [h4.1, hc.2]
    have e2 : pTheta f = false := decide_eq_false fun hc => by linarith [h4.1, hc.2]
    have e3 : pAlpha f = false := decide_eq_false fun hc => by linarith [h4.1, hc.2]
    have e4 : pBeta f = true := decide_eq_true h4
    simp [qBeta, e1, e2, e3, e4]
  · simp [qBeta, pBeta, h4]

lemma qGamma_eq_pGamma : qGamma = pGamma := by
  funext f
  by_cases h5 : 30 ≤ f ∧ f ≤ 45
  · have e1 : pDelta f = false := decide_eq_false fun hc => by linarith [h5.1, hc.2]
    have e2 : pTheta f = false := decide_eq_false fun hc => by linarith [h5.1, hc.2]
    have e3 : pAlpha f = false := decide_eq_false fun hc => by linarith [h5.1, hc.2]
    have e4 : pBeta f = false := decide_eq_false fun hc => by linarith [h5.1, hc.2]
    have e5 : pGamma f = true := decide_eq_true h5
    simp [qGamma, e1, e2, e3, e4, e5]
  · simp [qGamma, pGamma, h5]

lemma meanGuard_eq (S : ℚ) (L : ℕ) :
    (if 0 < L then S / (L : ℚ) else 0) = (if L = 0 then 0 else S / (L : ℚ)) := by
  rcases Nat.eq_zero_or_pos L with h | h
  · simp [h]
  · simp [h, h.ne']

/-- C6: each of the five band powers returned by `calculateBandPowers`
equals the mean of the squared magnitudes of the DFT bins (the first
`⌊n/2⌋` positive-frequency bins, magnitudes normalised by `n` inside
`computeFFT`) whose frequency lies in `[lowHz, highHz)` for its band, with
the gamma band closed at 45 Hz, and equals `0` for a band with no bins. -/
theorem calculateBandPowers_band_means (M : MathOps) (signal : List ℚ)
    (sampleRate : ℚ) :
    calculateBandPowers M signal sampleRate =
      ⟨bandMeanSpec (computeFFT M signal sampleRate).1
          (computeFFT M signal sampleRate).2 pDelta,
        bandMeanSpec (computeFFT M signal sampleRate).1
          (computeFFT M signal sampleRate).2 pTheta,
        bandMeanSpec (computeFFT M signal sampleRate).1
          (computeFFT M signal sampleRate).2 pAlpha,
        bandMeanSpec (computeFFT M signal sampleRate).1
          (computeFFT M signal sampleRate).2 pBeta,
        bandMeanSpec (computeFFT M signal sampleRate).1
          (computeFFT M signal sampleRate).2 pGamma⟩ ∧
      (computeFFT M signal sampleRate).1.length = signal.length / 2 ∧
      (computeFFT M signal sampleRate).2.length = signal.length / 2 := by
  refine ⟨?_, by simp only [computeFFT, List.length_map, List.length_range],
    by simp only [computeFFT, List.length_map, List.length_range]⟩
  simp only [calculateBandPowers]
  rw [bandStep_foldl]
  simp only [qTheta_eq_pTheta, qAlpha_eq_pAlpha, qBeta_eq_pBeta, qGamma_eq_pGamma]
  simp only [bandMeanSpec, bandBins, zero_add]
  rw [BandPowers.mk.injEq]
  exact ⟨meanGuard_eq _ _, meanGuard_eq _ _, meanGuard_eq _ _,
    meanGuard_eq _ _, meanGuard_eq _ _⟩

/-- The emotion labels (`EmotionType` in `signal-generator.ts`). -/
inductive EmotionType where
  | happy : EmotionType
  | neutral : EmotionType
  | sad : EmotionType
deriving DecidableEq

/-- The probability triple of an `EmotionPrediction`, as JavaScript
numbers (they can be `NaN` when the normalisation divides `0/0`). -/
structure Probabilities where
  happy : JSNum
  neutral : JSNum
  sad : JSNum
deriving DecidableEq

/-- `EmotionPrediction` from `emotion-classifier.ts`. -/
structure EmotionPrediction where
  emotion : EmotionType
  confidence : JSNum
  probabilities : Probabilities
deriving DecidableEq

/-- The probability assigned to an emotion by a probability triple. -/
def probOf (probs : Probabilities) : EmotionType → JSNum
  | .happy => probs.happy
  | .neutral => probs.neutral
  | .sad => probs.sad

/-- The final max-selection of `ruleBasedClassification`: start from
`neutral`, switch to `happy` then `sad` whenever their probability
strictly exceeds the running max (JS `>` on possibly-NaN numbers). -/
def selectMax (probs : Probabilities) : EmotionType × JSNum :=
  let e1 := if jlt probs.neutral probs.happy then (EmotionType.happy, probs.happy)
    else (EmotionType.neutral, probs.neutral)
  if jlt e1.2 probs.sad then (EmotionType.sad, probs.sad) else e1

/-- `ruleBasedClassification` from `emotion-classifier.ts`: normalises the
five whole-signal band powers by their total (no zero-total guard in the
source!), scores the three emotions by fixed linear combinations, applies
a softmax with the sad score scaled by `0.8`, and selects the maximum. -/
def ruleBasedClassification (M : MathOps) (signal : List ℚ) (sampleRate : ℚ) :
    EmotionPrediction :=
  let bp := calculateBandPowers M signal sampleRate
  let total := bp.delta + bp.theta + bp.alpha + bp.beta + bp.gamma
  let nDelta := jdiv (.fin bp.delta) (.fin total)
  let nTheta := jdiv (.fin bp.theta) (.fin total)
  let nAlpha := jdiv (.fin bp.alpha) (.fin total)
  let nBeta := jdiv (.fin bp.beta) (.fin total)
  let nGamma := jdiv (.fin bp.gamma) (.fin total)
  let happyScore := jadd (jadd (jmul nAlpha (.fin (3 / 2))) (jmul nBeta (.fin (4 / 5))))
    (jmul nGamma (.fin (6 / 5)))
  let neutralScore := jadd (jadd (jmul nAlpha (.fin 1)) (jmul nBeta (.fin 1)))
    (jmul nTheta (.fin (1 / 2)))
  let sadScore := jsub (jadd (jmul nTheta (.fin (3 / 2))) (jmul nDelta (.fin (6 / 5))))
    (jmul nAlpha (.fin (1 / 2)))
  let expHappy := jexp M happyScore
  let expNeutral := jexp M neutralScore
  let expSad := jexp M (jmul sadScore (.fin (4 / 5)))
  let expSum := jadd (jadd expHappy expNeutral) expSad
  let probs : Probabilities :=
    ⟨jdiv expHappy expSum, jdiv expNeutral expSum, jdiv expSad expSum⟩
  let sel := selectMax probs
  ⟨sel.1, sel.2, probs⟩

/-- The exact rational values of the classifier's softmax probability
triple when the band-power total is nonzero (happy, neutral, sad). -/
def softmaxProbs (M : MathOps) (bp : BandPowers) : ℚ × ℚ × ℚ :=
  let T := bp.delta + bp.theta + bp.alpha + bp.beta + bp.gamma
  let happyScore := bp.alpha / T * (3 / 2) + bp.beta / T * (4 / 5) + bp.gamma / T * (6 / 5)
  let neutralScore := bp.alpha / T * 1 + bp.beta / T * 1 + bp.theta / T * (1 / 2)
  let sadScore := bp.theta / T * (3 / 2) + bp.delta / T * (6 / 5) - bp.alpha / T * (1 / 2)
  let eH := M.exp happyScore
  let eN := M.exp neutralScore
  let eS := M.exp (sadScore * (4 / 5))
  (eH / (eH + eN + eS), eN / (eH + eN + eS), eS / (eH + eN + eS))

lemma selectMax_fin (ph pn ps : ℚ) :
    (selectMax ⟨.fin ph, .fin pn, .fin ps⟩).2 = .fin (max (max pn ph) ps) ∧
      probOf ⟨.fin ph, .fin pn, .fin ps⟩ (selectMax ⟨.fin ph, .fin pn, .fin ps⟩).1 =
        .fin (max (max pn ph) ps) := by
  by_cases h1 : pn < ph
  · by_cases h2 : ph < ps
    · rw [max_eq_right h1.le, max_eq_right h2.le]
      simp [selectMax, jlt, h1, h2, probOf]
    · rw [max_eq_right h1.le, max_eq_left (not_lt.mp h2)]
      simp [selectMax, jlt, h1, h2, probOf]
  · by_cases h2 : pn < ps
    · rw [max_eq_left (not_lt.mp h1), max_eq_right h2.le]
      simp [selectMax, jlt, h1, h2, probOf]
    · rw [max_eq_left (not_lt.mp h1), max_eq_left (not_lt.mp h2)]
      simp [selectMax, jlt, h1, h2, probOf]

lemma getD_replicate_zero (n i : ℕ) : (List.replicate n (0 : ℚ)).getD i 0 = 0 := by
  by_cases h : i < n <;>
    simp [List.getD_eq_getElem?_getD, List.getElem?_replicate, h]

lemma dftRe_zero (M : MathOps) (n k : ℕ) : dftRe M (List.replicate n 0) k = 0 := by
  simp [dftRe, getD_replicate_zero]

lemma dftIm_zero (M : MathOps) (n k : ℕ) : dftIm M (List.replicate n 0) k = 0 := by
  simp [dftIm, getD_replicate_zero]

lemma sum_map_sq_zero (mags : List ℚ) (h : ∀ i, mags.getD i 0 = 0) (l : List ℕ) :
    (l.map (fun i => mags.getD i 0 ^ 2)).sum = 0 := by
  induction l with
  | nil => simp
  | cons a l ih =>
      rw [List.map_cons, List.sum_cons, h a, ih]
      ring

lemma calculateBandPowers_zero (M : MathOps) (hsqrt0 : M.sqrt 0 = 0)
    (n : ℕ) (fs : ℚ) :
    calculateBandPowers M (List.replicate n 0) fs = ⟨0, 0, 0, 0, 0⟩ := by
  have hmag : ∀ i : ℕ,
      ((computeFFT M (List.replicate n 0) fs).2).getD i 0 = 0 := by
    intro i
    by_cases hi : i < ((computeFFT M (List.replicate n 0) fs).2).length
    · rw [List.getD_eq_getElem _ _ hi]
      simp only [computeFFT] at hi ⊢
      rw [List.getElem_map]
      rw [dftRe_zero, dftIm_zero]
      norm_num [hsqrt0]
    · exact List.getD_eq_default _ _ (not_lt.mp hi)
  simp only [calculateBandPowers]
  rw [bandStep_foldl]
  simp only [sum_map_sq_zero _ hmag, zero_add]
  simp

/-- C2 (amended): on an all-zero signal `calculateBandPowers` does return
all five band powers equal to zero, but `ruleBasedClassification` has no
zero-total special case: the normalisation computes `0/0 = NaN`, all
three probabilities and the confidence are `NaN` (not the uniform `1/3`),
and the emotion defaults to `neutral`. -/
theorem allzero_bandPowers_and_classifier (M : MathOps) (hsqrt0 : M.sqrt 0 = 0)
    (n : ℕ) (fs : ℚ) :
    calculateBandPowers M (List.replicate n 0) fs = ⟨0, 0, 0, 0, 0⟩ ∧
      (ruleBasedClassification M (List.replicate n 0) fs).probabilities =
        ⟨.nan, .nan, .nan⟩ ∧
      (ruleBasedClassification M (List.replicate n 0) fs).confidence = .nan ∧
      (ruleBasedClassification M (List.replicate n 0) fs).emotion = .neutral := by
  have hbp := calculateBandPowers_zero M hsqrt0 n fs
  refine ⟨hbp, ?_, ?_, ?_⟩ <;>
    simp [ruleBasedClassification, hbp, selectMax, jdiv, jmul, jadd, jsub,
      jneg, jexp, jlt]

/-- Witness for the amended C2 at a concrete input: the all-zero signal of
length 4 at 256 Hz with a concrete `Math` instance. -/
theorem allzero_bandPowers_and_classifier_witness :
    calculateBandPowers mTest (List.replicate 4 0) 256 = ⟨0, 0, 0, 0, 0⟩ ∧
      (ruleBasedClassification mTest (List.replicate 4 0) 256).probabilities =
        ⟨.nan, .nan, .nan⟩ ∧
      (ruleBasedClassification mTest (List.replicate 4 0) 256).confidence = .nan ∧
      (ruleBasedClassification mTest (List.replicate 4 0) 256).emotion = .neutral :=
  allzero_bandPowers_and_classifier mTest (by decide) 4 256

/-- C2 counterexample: the claim asserts that on an all-zero signal the
classifier returns uniform probabilities `1/3` with confidence `1/3`; in
fact on the all-zero signal `[0]` the zero band-power total is divided
through unguarded, so every probability and the confidence are `NaN`. -/
theorem allzero_classifier_not_uniform :
    (ruleBasedClassification mTest [0] 256).probabilities.happy = JSNum.nan ∧
      (ruleBasedClassification mTest [0] 256).probabilities.happy ≠
        JSNum.fin (1 / 3) ∧
      (ruleBasedClassification mTest [0] 256).confidence ≠ JSNum.fin (1 / 3) := by
  have hbp : calculateBandPowers mTest [0] 256 = ⟨0, 0, 0, 0, 0⟩ :=
    calculateBandPowers_zero mTest rfl 1 256
  refine ⟨?_, ?_, ?_⟩ <;>
    simp [ruleBasedClassification, hbp, selectMax, jdiv, jmul, jadd, jsub,
      jneg, jexp, jlt]

lemma softmax3 (a b c : ℚ) (ha : 0 < a) (hb : 0 < b) (hc : 0 < c) :
    0 ≤ a / (a + b + c) ∧ 0 ≤ b / (a + b + c) ∧ 0 ≤ c / (a + b + c) ∧
      a / (a + b + c) + b / (a + b + c) + c / (a + b + c) = 1 := by
  have hs : 0 < a + b + c := by linarith
  refine ⟨by positivity, by positivity, by positivity, ?_⟩
  field_simp

lemma softmaxProbs_props (M : MathOps) (bp : BandPowers)
    (hexp : ∀ x : ℚ, 0 < M.exp x) :
    0 ≤ (softmaxProbs M bp).1 ∧ 0 ≤ (softmaxProbs M bp).2.1 ∧
      0 ≤ (softmaxProbs M bp).2.2 ∧
      (softmaxProbs M bp).1 + (softmaxProbs M bp).2.1 +
        (softmaxProbs M bp).2.2 = 1 := by
  simp only [softmaxProbs]
  exact softmax3 _ _ _ (hexp _) (hexp _) (hexp _)

lemma ruleBased_sel (M : MathOps) (signal : List ℚ) (sampleRate : ℚ) :
    (ruleBasedClassification M signal sampleRate).confidence =
        (selectMax (ruleBasedClassification M signal sampleRate).probabilities).2 ∧
      (ruleBasedClassification M signal sampleRate).emotion =
        (selectMax (ruleBasedClassification M signal sampleRate).probabilities).1 :=
  ⟨rfl, rfl⟩

lemma ruleBased_probs_fin (M : MathOps) (signal : List ℚ) (sampleRate : ℚ)
    (hexp : ∀ x : ℚ, 0 < M.exp x)
    (htot : (calculateBandPowers M signal sampleRate).delta +
        (calculateBandPowers M signal sampleRate).theta +
        (calculateBandPowers M signal sampleRate).alpha +
        (calculateBandPowers M signal sampleRate).beta +
        (calculateBandPowers M signal sampleRate).gamma ≠ 0) :
    (ruleBasedClassification M signal sampleRate).probabilities =
      ⟨.fin (softmaxProbs M (calculateBandPowers M signal sampleRate)).1,
        .fin (softmaxProbs M (calculateBandPowers M signal sampleRate)).2.1,
        .fin (softmaxProbs M (calculateBandPowers M signal sampleRate)).2.2⟩ := by
  have hSum : ∀ a b c : ℚ, ¬(M.exp a + M.exp b + M.exp c = 0) := by
    intro a b c
    have h1 := hexp a
    have h2 := hexp b
    have h3 := hexp c
    intro hc
    linarith
  simp only [ruleBasedClassification, softmaxProbs]
  simp [jdiv, jmul, jadd, jsub, jneg, jexp, htot, hSum, sub_eq_add_neg]

/-- C7 (amended): whenever the five band powers have a nonzero total (and
`Math.exp` is positive, as the real exponential is), the classifier's
probabilities are finite, non-negative and sum to exactly 1 (hence within
`1e-6`), the confidence equals the maximum probability and lies in
`[0, 1]`, and the returned emotion attains that maximum.  (For a zero
total they are all `NaN`, see the C7 counterexample.) -/
theorem ruleBased_distribution (M : MathOps) (signal : List ℚ) (sampleRate : ℚ)
    (hexp : ∀ x : ℚ, 0 < M.exp x)
    (htot : (calculateBandPowers M signal sampleRate).delta +
        (calculateBandPowers M signal sampleRate).theta +
        (calculateBandPowers M signal sampleRate).alpha +
        (calculateBandPowers M signal sampleRate).beta +
        (calculateBandPowers M signal sampleRate).gamma ≠ 0) :
    ∃ ph pn ps : ℚ,
      (ruleBasedClassification M signal sampleRate).probabilities =
          ⟨.fin ph, .fin pn, .fin ps⟩ ∧
        0 ≤ ph ∧ 0 ≤ pn ∧ 0 ≤ ps ∧ ph + pn + ps = 1 ∧
        (ruleBasedClassification M signal sampleRate).confidence =
          .fin (max (max pn ph) ps) ∧
        0 ≤ max (max pn ph) ps ∧ max (max pn ph) ps ≤ 1 ∧
        probOf (ruleBasedClassification M signal sampleRate).probabilities
            (ruleBasedClassification M signal sampleRate).emotion =
          (ruleBasedClassification M signal sampleRate).confidence := by
  have hprob := ruleBased_probs_fin M signal sampleRate hexp htot
  have hsm := softmaxProbs_props M (calculateBandPowers M signal sampleRate) hexp
  obtain ⟨h0h, h0n, h0s, hsum⟩ := hsm
  refine ⟨(softmaxProbs M (calculateBandPowers M signal sampleRate)).1,
    (softmaxProbs M (calculateBandPowers M signal sampleRate)).2.1,
    (softmaxProbs M (calculateBandPowers M signal sampleRate)).2.2,
    hprob, h0h, h0n, h0s, hsum, ?_, ?_, ?_, ?_⟩
  · rw [(ruleBased_sel M signal sampleRate).1, hprob]
    exact (selectMax_fin _ _ _).1
  · exact le_trans h0n (le_trans (le_max_left _ _) (le_max_left _ _))
  · have hh : (softmaxProbs M (calculateBandPowers M signal sampleRate)).1 ≤ 1 := by
      linarith
    have hn : (softmaxProbs M (calculateBandPowers M signal sampleRate)).2.1 ≤ 1 := by
      linarith
    have hs : (softmaxProbs M (calculateBandPowers M signal sampleRate)).2.2 ≤ 1 := by
      linarith
    exact max_le (max_le hn hh) hs
  · rw [(ruleBased_sel M signal sampleRate).1, (ruleBased_sel M signal sampleRate).2,
      hprob]
    rw [(selectMax_fin _ _ _).1]
    exact (selectMax_fin _ _ _).2

lemma fft_witness_eval :
    computeFFT mTest [1, 0, 0, 0] 4 = ([0, 1], [1 / 4, 1 / 4]) := by
  unfold computeFFT dftRe dftIm
  norm_num [mTest, List.range_succ]

lemma bp_witness_eval :
    calculateBandPowers mTest [1, 0, 0, 0] 4 = ⟨1 / 16, 0, 0, 0, 0⟩ := by
  have hp0D : pDelta (0 : ℚ) = false := decide_eq_false (by norm_num)
  have hp1D : pDelta (1 : ℚ) = true := decide_eq_true (by norm_num)
  have hp0T : pTheta (0 : ℚ) = false := decide_eq_false (by norm_num)
  have hp1T : pTheta (1 : ℚ) = false := decide_eq_false (by norm_num)
  have hp0A : pAlpha (0 : ℚ) = false := decide_eq_false (by norm_num)
  have hp1A : pAlpha (1 : ℚ) = false := decide_eq_false (by norm_num)
  have hp0B : pBeta (0 : ℚ) = false := decide_eq_false (by norm_num)
  have hp1B : pBeta (1 : ℚ) = false := decide_eq_false (by norm_num)
  have hp0G : pGamma (0 : ℚ) = false := decide_eq_false (by norm_num)
  have hp1G : pGamma (1 : ℚ) = false := decide_eq_false (by norm_num)
  simp only [calculateBandPowers, fft_witness_eval]
  rw [bandStep_foldl]
  norm_num [List.range_succ, qTheta, qAlpha, qBeta, qGamma,
    hp0D, hp1D, hp0T, hp1T, hp0A, hp1A, hp0B, hp1B, hp0G, hp1G]

/-- C7 counterexample: on the all-zero signal `[0, 0]` the classifier's
probabilities do not sum to 1 within any tolerance and are not
non-negative rationals: their JavaScript sum is `NaN`, as is the
confidence. -/
theorem ruleBased_probabilities_nan :
    jadd (jadd (ruleBasedClassification mTest [0, 0] 128).probabilities.happy
        (ruleBasedClassification mTest [0, 0] 128).probabilities.neutral)
      (ruleBasedClassification mTest [0, 0] 128).probabilities.sad = JSNum.nan ∧
    jadd (jadd (ruleBasedClassification mTest [0, 0] 128).probabilities.happy
        (ruleBasedClassification mTest [0, 0] 128).probabilities.neutral)
      (ruleBasedClassification mTest [0, 0] 128).probabilities.sad ≠
        JSNum.fin 1 ∧
    (ruleBasedClassification mTest [0, 0] 128).confidence = JSNum.nan := by
  have hbp : calculateBandPowers mTest [0, 0] 128 = ⟨0, 0, 0, 0, 0⟩ :=
    calculateBandPowers_zero mTest rfl 2 128
  refine ⟨?_, ?_, ?_⟩ <;>
    simp [ruleBasedClassification, hbp, selectMax, jdiv, jmul, jadd, jsub,
      jneg, jexp, jlt]

/-- Witness for the amended C7: the signal `[1, 0, 0, 0]` at 4 Hz has
nonzero total band power under the concrete `Math` instance, so the
distribution properties apply to it. -/
theorem ruleBased_distribution_witness :
    (∀ x : ℚ, 0 < mTest.exp x) ∧
      ∃ ph pn ps : ℚ,
        (ruleBasedClassification mTest [1, 0, 0, 0] 4).probabilities =
            ⟨.fin ph, .fin pn, .fin ps⟩ ∧
          0 ≤ ph ∧ 0 ≤ pn ∧ 0 ≤ ps ∧ ph + pn + ps = 1 ∧
          (ruleBasedClassification mTest [1, 0, 0, 0] 4).confidence =
            .fin (max (max pn ph) ps) ∧
          0 ≤ max (max pn ph) ps ∧ max (max pn ph) ps ≤ 1 ∧
          probOf (ruleBasedClassification mTest [1, 0, 0, 0] 4).probabilities
              (ruleBasedClassification mTest [1, 0, 0, 0] 4).emotion =
            (ruleBasedClassification mTest [1, 0, 0, 0] 4).confidence :=
  ⟨fun x => one_pos,
    ruleBased_distribution mTest [1, 0, 0, 0] 4 (fun x => one_pos)
      (by rw [bp_witness_eval]; norm_num)⟩

/-- `butterworthCoeffs` from `signal-processing.ts`: closed-form
second-order low-pass Butterworth coefficients via the bilinear transform,
`wc = Math.tan(Math.PI * cutoffFreq / sampleRate)`; returns `(b, a)`. -/
def butterworthCoeffs (M : MathOps) (cutoffFreq sampleRate : ℚ) :
    List ℚ × List ℚ :=
  let wc := M.tan (M.pi * cutoffFreq / sampleRate)
  let wc2 := wc * wc
  let sqrt2 := M.sqrt 2
  let k := 1 + sqrt2 * wc + wc2
  ([wc2 / k, 2 * wc2 / k, wc2 / k],
    [1, 2 * (wc2 - 1) / k, (1 - sqrt2 * wc + wc2) / k])

/-- Value of `output[i]` in `applyIIRFilter`: feed-forward sum of
`b[j] * signal[i-j]` minus feedback sum of `a[j] * output[i-j]`
(`j ≥ 1`), each restricted to `i - j ≥ 0`. -/
def iirAt (signal b a out : List ℚ) (i : ℕ) : ℚ :=
  ((List.range b.length).map
      (fun j => if j ≤ i then b.getD j 0 * signal.getD (i - j) 0 else 0)).sum -
    (((List.range a.length).drop 1).map
      (fun j => if j ≤ i then a.getD j 0 * out.getD (i - j) 0 else 0)).sum

/-- `applyIIRFilter` from `signal-processing.ts`: direct-form IIR filter,
computing each output sample from the input and the previous outputs. -/
def applyIIRFilter (signal b a : List ℚ) : List ℚ :=
  (List.range signal.length).foldl
    (fun out i => out ++ [iirAt signal b a out i]) []

/-- `filtfilt` from `signal-processing.ts`: zero-phase filtering — filter
forward, reverse, filter again, reverse back. -/
def filtfilt (signal b a : List ℚ) : List ℚ :=
  (applyIIRFilter (applyIIRFilter signal b a).reverse b a).reverse

/-- `lowPassFilter` from `signal-processing.ts`. -/
def lowPassFilter (M : MathOps) (signal : List ℚ) (cutoffFreq sampleRate : ℚ) :
    List ℚ :=
  filtfilt signal (butterworthCoeffs M cutoffFreq sampleRate).1
    (butterworthCoeffs M cutoffFreq sampleRate).2

/-- `highPassFilter` from `signal-processing.ts`: the low-pass complement,
`signal.map((v, i) => v - lowPassed[i])`. -/
def highPassFilter (M : MathOps) (signal : List ℚ) (cutoffFreq sampleRate : ℚ) :
    List ℚ :=
  let lowPassed := lowPassFilter M signal cutoffFreq sampleRate
  signal.mapIdx (fun i v => v - lowPassed.getD i 0)

/-- `bandPassFilter` from `signal-processing.ts`: high-pass at the low
cutoff, then low-pass at the high cutoff. -/
def bandPassFilter (M : MathOps) (signal : List ℚ)
    (lowFreq highFreq sampleRate : ℚ) : List ℚ :=
  lowPassFilter M (highPassFilter M signal lowFreq sampleRate) highFreq sampleRate

lemma applyIIRFilter_foldl_length (signal b a : List ℚ) (is : List ℕ)
    (acc : List ℚ) :
    (is.foldl (fun out i => out ++ [iirAt signal b a out i]) acc).length =
      acc.length + is.length := by
  induction is generalizing acc with
  | nil => simp
  | cons i is ih => simp [ih]; ring

lemma applyIIRFilter_length (signal b a : List ℚ) :
    (applyIIRFilter signal b a).length = signal.length := by
  simp [applyIIRFilter, applyIIRFilter_foldl_length]

lemma lowPassFilter_length (M : MathOps) (signal : List ℚ)
    (cutoffFreq sampleRate : ℚ) :
    (lowPassFilter M signal cutoffFreq sampleRate).length = signal.length := by
  simp [lowPassFilter, filtfilt, applyIIRFilter_length]

/-- C8: `highPassFilter` returns the sample-wise difference of the signal
and its low-pass filtered version, and `bandPassFilter` is low-pass at
the high cutoff composed after high-pass at the low cutoff. -/
theorem highPass_complement_bandPass_composition (M : MathOps) (signal : List ℚ)
    (cutoffFreq lowFreq highFreq sampleRate : ℚ) :
    (∀ i : ℕ, (highPassFilter M signal cutoffFreq sampleRate).getD i 0 =
        signal.getD i 0 -
          (lowPassFilter M signal cutoffFreq sampleRate).getD i 0) ∧
      (highPassFilter M signal cutoffFreq sampleRate).length = signal.length ∧
      bandPassFilter M signal lowFreq highFreq sampleRate =
        lowPassFilter M (highPassFilter M signal lowFreq sampleRate) highFreq
          sampleRate := by
  refine ⟨?_, by simp [highPassFilter], rfl⟩
  intro i
  by_cases hi : i < signal.length
  · have hlen : i < (highPassFilter M signal cutoffFreq sampleRate).length := by
      simpa [highPassFilter] using hi
    rw [List.getD_eq_getElem _ _ hlen, List.getD_eq_getElem _ _ hi]
    simp [highPassFilter]
  · have h1 : (highPassFilter M signal cutoffFreq sampleRate).length ≤ i := by
      simp only [highPassFilter]
      simp only [List.length_mapIdx]
      omega
    rw [List.getD_eq_default _ _ h1, List.getD_eq_default _ _ (not_lt.mp hi),
      List.getD_eq_default _ _ (by rw [lowPassFilter_length]; exact not_lt.mp hi)]
    ring

/-- A concrete computable `Math` instance for the filter counterexample:
`tan` returns `-1`, the value of the real tangent at `π · (3/4 · fs) / fs`,
and `sqrt` returns `1`. -/
def mFilt : MathOps :=
  ⟨fun _ => 1, fun _ => 1, fun _ => 0, fun _ => 0, fun _ => 1, fun _ => -1,
    355 / 113⟩

lemma butterworthCoeffs_mFilt :
    butterworthCoeffs mFilt 192 256 = ([1, 2, 1], [1, 0, 3]) := by
  norm_num [butterworthCoeffs, mFilt]

lemma lowPassFilter_mFilt :
    lowPassFilter mFilt [1, 0, 0] 192 256 = [9, -2, -2] := by
  rw [lowPassFilter, butterworthCoeffs_mFilt]
  norm_num [filtfilt, applyIIRFilter, iirAt, List.range_succ]

/-- C5 counterexample: for the filter request with cutoff `192 = 3/4 · 256`
(where the real tangent is `-1`, as `mFilt.tan` returns), the computed
coefficients are unstable — the trailing denominator coefficient `a₂`,
the product of the two poles, is `3`, so a pole lies outside the unit
circle — yet `lowPassFilter` does not return the input unchanged and no
`FilterUnstable` condition exists anywhere in the API: the output of the
pass on `[1, 0, 0]` is the diverged `[9, -2, -2]`. -/
theorem filter_unstable_not_passthrough :
    (butterworthCoeffs mFilt 192 256).2.getD 2 0 = 3 ∧
      (1 : ℚ) < |(butterworthCoeffs mFilt 192 256).2.getD 2 0| ∧
      lowPassFilter mFilt [1, 0, 0] 192 256 ≠ [1, 0, 0] := by
  rw [butterworthCoeffs_mFilt, lowPassFilter_mFilt]
  norm_num

/-- C5 (amended): the filter bank performs no stability check at all —
`lowPassFilter` applies `filtfilt` with the computed Butterworth
coefficients unconditionally, its return type has no error channel for a
`FilterUnstable` condition, and for the unstable request at cutoff
`3/4 · fs` the zero-phase pass turns `[1, 0, 0]` into `[9, -2, -2]`
instead of passing the input through. -/
theorem lowPass_no_stability_check :
    (∀ (M : MathOps) (signal : List ℚ) (f fs : ℚ),
        lowPassFilter M signal f fs =
          filtfilt signal (butterworthCoeffs M f fs).1
            (butterworthCoeffs M f fs).2) ∧
      (1 : ℚ) < |(butterworthCoeffs mFilt 192 256).2.getD 2 0| ∧
      lowPassFilter mFilt [1, 0, 0] 192 256 = [9, -2, -2] := by
  refine ⟨fun M signal f fs => rfl, ?_, lowPassFilter_mFilt⟩
  rw [butterworthCoeffs_mFilt]
  norm_num

/-- `generateSineWave` from `signal-generator.ts`:
`Math.floor(duration * sampleRate)` samples of
`amplitude * Math.sin(2π · frequency · (i / sampleRate) + phase)`. -/
def generateSineWave (M : MathOps)
    (frequency amplitude duration sampleRate phase : ℚ) : List ℚ :=
  let samples := (Int.floor (duration * sampleRate)).toNat
  (List.range samples).map
    (fun (i : ℕ) =>
      amplitude * M.sin (2 * M.pi * frequency * ((i : ℚ) / sampleRate) + phase))

/-- `generateNoise` from `signal-generator.ts`, with `Math.random()`
modelled as the injected stream `rand`. -/
def generateNoise (rand : ℕ → ℚ) (length : ℕ) (amplitude : ℚ) : List ℚ :=
  (List.range length).map (fun i => (rand i - 1 / 2) * 2 * amplitude)

/-- `generatePowerLineNoise` from `signal-generator.ts`. -/
def generatePowerLineNoise (M : MathOps)
    (duration sampleRate frequency amplitude : ℚ) : List ℚ :=
  generateSineWave M frequency amplitude duration sampleRate 0

/-- `addSignals` from `signal-generator.ts`: position-wise sum of the
signals, padded with `0` up to the maximum length. -/
def addSignals (signals : List (List ℚ)) : List ℚ :=
  let maxLength := (signals.map List.length).foldl max 0
  (List.range maxLength).map (fun i => (signals.map (fun s => s.getD i 0)).sum)

/-- `generateAlphaWaves`: 10 Hz at 0.8 plus 11 Hz at 0.4 (phase π/4). -/
def generateAlphaWaves (M : MathOps) (duration sampleRate : ℚ) : List ℚ :=
  addSignals [generateSineWave M 10 (4 / 5) duration sampleRate 0,
    generateSineWave M 11 (2 / 5) duration sampleRate (M.pi / 4)]

/-- `generateBetaWaves`: 18/22/26 Hz at 0.5/0.3/0.2 (phases 0, π/3, π/6). -/
def generateBetaWaves (M : MathOps) (duration sampleRate : ℚ) : List ℚ :=
  addSignals [generateSineWave M 18 (1 / 2) duration sampleRate 0,
    generateSineWave M 22 (3 / 10) duration sampleRate (M.pi / 3),
    generateSineWave M 26 (1 / 5) duration sampleRate (M.pi / 6)]

/-- `generateThetaWaves`: 5/7 Hz at 0.6/0.4 (phases 0, π/5). -/
def generateThetaWaves (M : MathOps) (duration sampleRate : ℚ) : List ℚ :=
  addSignals [generateSineWave M 5 (3 / 5) duration sampleRate 0,
    generateSineWave M 7 (2 / 5) duration sampleRate (M.pi / 5)]

/-- `generateDeltaWaves`: 1/2.5 Hz at 1.0/0.5 (phases 0, π/4). -/
def generateDeltaWaves (M : MathOps) (duration sampleRate : ℚ) : List ℚ :=
  addSignals [generateSineWave M 1 1 duration sampleRate 0,
    generateSineWave M (5 / 2) (1 / 2) duration sampleRate (M.pi / 4)]

/-- `generateGammaWaves`: 40/50 Hz at 0.2/0.1 (phases 0, π/2). -/
def generateGammaWaves (M : MathOps) (duration sampleRate : ℚ) : List ℚ :=
  addSignals [generateSineWave M 40 (1 / 5) duration sampleRate 0,
    generateSineWave M 50 (1 / 10) duration sampleRate (M.pi / 2)]

/-- `CustomSignalParams` from `signal-generator.ts`. -/
structure CustomSignalParams where
  alpha : ℚ
  beta : ℚ
  theta : ℚ
  delta : ℚ
  gamma : ℚ
  noiseLevel : ℚ
  powerNoiseFreq : ℚ
  powerNoiseLevel : ℚ
deriving DecidableEq

/-- `BrainSignal` from `signal-generator.ts`. -/
structure BrainSignal where
  data : List ℚ
  sampleRate : ℚ
  duration : ℚ
  emotion : EmotionType
  label : String
deriving DecidableEq

/-- `generateCustomSignal` from `signal-generator.ts`: weighted sum of the
five band waves plus noise and power-line interference, with the emotion
label decided by thresholding the weights. -/
def generateCustomSignal (M : MathOps) (rand : ℕ → ℚ)
    (params : CustomSignalParams) (duration sampleRate : ℚ) : BrainSignal :=
  let alpha := generateAlphaWaves M duration sampleRate
  let beta := generateBetaWaves M duration sampleRate
  let theta := generateThetaWaves M duration sampleRate
  let delta := generateDeltaWaves M duration sampleRate
  let gamma := generateGammaWaves M duration sampleRate
  let noise := generateNoise rand alpha.length params.noiseLevel
  let powerNoise := generatePowerLineNoise M duration sampleRate
    params.powerNoiseFreq params.powerNoiseLevel
  let signal := alpha.mapIdx (fun i v =>
    v * params.alpha + beta.getD i 0 * params.beta +
      theta.getD i 0 * params.theta + delta.getD i 0 * params.delta +
      gamma.getD i 0 * params.gamma + noise.getD i 0 + powerNoise.getD i 0)
  let emotion : EmotionType :=
    if params.alpha > 4 / 5 ∧ params.gamma > 1 / 5 then .happy
    else if params.theta > 4 / 5 ∨ params.delta > 3 / 5 then .sad
    else .neutral
  ⟨signal, sampleRate, duration, emotion, "Custom Signal"⟩

lemma generateSineWave_length (M : MathOps) (f a d r ph : ℚ) :
    (generateSineWave M f a d r ph).length = (Int.floor (d * r)).toNat := by
  simp [generateSineWave]

lemma addSignals_length (signals : List (List ℚ)) :
    (addSignals signals).length = (signals.map List.length).foldl max 0 := by
  simp [addSignals]

lemma generateAlphaWaves_length (M : MathOps) (d r : ℚ) :
    (generateAlphaWaves M d r).length = (Int.floor (d * r)).toNat := by
  simp [generateAlphaWaves, addSignals_length, generateSineWave_length]

lemma generateCustomSignal_length_eq (M : MathOps) (rand : ℕ → ℚ)
    (params : CustomSignalParams) (d r : ℚ) :
    (generateCustomSignal M rand params d r).data.length =
      (Int.floor (d * r)).toNat := by
  simp [generateCustomSignal, generateAlphaWaves_length]

/-- The injected `Math.random()` stream used by concrete evaluations. -/
def randZero : ℕ → ℚ := fun _ => 0

/-- All-zero synthesis weights with a 50 Hz power-line setting. -/
def paramsZero : CustomSignalParams := ⟨0, 0, 0, 0, 0, 0, 50, 0⟩

/-- C3 counterexample: at duration `0.51` s and sample rate `50` Hz the
synthesized data length is `⌊25.5⌋ = 25`, while the claim's
`round(duration × sampleRate)` is `26`. -/
theorem generateCustomSignal_length_floor_not_round :
    (generateCustomSignal mTest randZero paramsZero (51 / 100) 50).data.length =
        25 ∧
      round ((51 / 100 : ℚ) * 50) = 26 ∧ (25 : ℤ) ≠ 26 := by
  refine ⟨?_, ?_, by norm_num⟩
  · rw [generateCustomSignal_length_eq]
    norm_num
    decide
  · rw [round_eq]
    norm_num

/-- C3 (amended): for every synthesis call (any weights, duration and
sample rate), the synthesized signal's data array has length exactly
`⌊duration × sampleRate⌋` — truncation via `Math.floor`, as §3 of the
specification says, not rounding; the same holds for each
`generateSineWave` building block. -/
theorem generateCustomSignal_data_length (M : MathOps) (rand : ℕ → ℚ)
    (params : CustomSignalParams) (duration sampleRate : ℚ) :
    (generateCustomSignal M rand params duration sampleRate).data.length =
        (Int.floor (duration * sampleRate)).toNat ∧
      ∀ f a ph : ℚ, (generateSineWave M f a duration sampleRate ph).length =
        (Int.floor (duration * sampleRate)).toNat :=
  ⟨generateCustomSignal_length_eq M rand params duration sampleRate,
    fun f a ph => generateSineWave_length M f a duration sampleRate ph⟩

/-- C9: the emotion label of a custom-mode synthesis call is `happy`
exactly when the alpha weight exceeds 0.8 and the gamma weight exceeds
0.2; otherwise `sad` exactly when the theta weight exceeds 0.8 or the
delta weight exceeds 0.6; otherwise `neutral`. -/
theorem generateCustomSignal_emotion_thresholds (M : MathOps) (rand : ℕ → ℚ)
    (params : CustomSignalParams) (duration sampleRate : ℚ) :
    ((generateCustomSignal M rand params duration sampleRate).emotion =
          .happy ↔ params.alpha > 4 / 5 ∧ params.gamma > 1 / 5) ∧
      ((generateCustomSignal M rand params duration sampleRate).emotion =
          .sad ↔ ¬(params.alpha > 4 / 5 ∧ params.gamma > 1 / 5) ∧
            (params.theta > 4 / 5 ∨ params.delta > 3 / 5)) ∧
      ((generateCustomSignal M rand params duration sampleRate).emotion =
          .neutral ↔ ¬(params.alpha > 4 / 5 ∧ params.gamma > 1 / 5) ∧
            ¬(params.theta > 4 / 5 ∨ params.delta > 3 / 5)) := by
  have he : (generateCustomSignal M rand params duration sampleRate).emotion =
      (if params.alpha > 4 / 5 ∧ params.gamma > 1 / 5 then EmotionType.happy
        else if params.theta > 4 / 5 ∨ params.delta > 3 / 5 then .sad
        else .neutral) := rfl
  rw [he]
  split_ifs with h1 h2
  · exact ⟨iff_of_true rfl h1,
      iff_of_false (by simp) (fun hc => hc.1 h1),
      iff_of_false (by simp) (fun hc => hc.1 h1)⟩
  · exact ⟨iff_of_false (by simp) h1,
      iff_of_true rfl ⟨h1, h2⟩,
      iff_of_false (by simp) (fun hc => hc.2 h2)⟩
  · exact ⟨iff_of_false (by simp) h1,
      iff_of_false (by simp) (fun hc => h2 hc.2),
      iff_of_true rfl ⟨h1, h2⟩⟩

/-- Matrices of the `ml-matrix` library, modelled as entry functions;
dimensions are tracked at the use sites. -/
abbrev Mat : Type := ℕ → ℕ → ℚ

/-- Matrix product with explicit inner dimension `K`. -/
def matMul (K : ℕ) (A B : Mat) : Mat :=
  fun i j => ((List.range K).map (fun k => A i k * B k j)).sum

/-- Matrix transpose. -/
def matTranspose (A : Mat) : Mat := fun i j => A j i

/-- The matrix whose rows are the given lists (`new Matrix(data)`). -/
def matOfRows (rows : List (List ℚ)) : Mat :=
  fun i j => (rows.getD i []).getD j 0

/-- `to2DArray()` for an `r × c` matrix. -/
def matToRows (r c : ℕ) (A : Mat) : List (List ℚ) :=
  (List.range r).map (fun i => (List.range c).map (fun j => A i j))

lemma getD_replicate_lt {α : Type} (x d : α) {i k : ℕ} (h : i < k) :
    (List.replicate k x).getD i d = x := by
  rw [List.getD_eq_getElem _ _ (by simpa using h)]
  exact List.getElem_replicate x (by simpa using h)

lemma matMul_zero_right (K : ℕ) (A : Mat) :
    matMul K A (fun _ _ => 0) = fun _ _ => 0 := by
  funext i j
  simp [matMul]

lemma matOfRows_zero (k n : ℕ) :
    matOfRows (List.replicate k (List.replicate n (0 : ℚ))) = fun _ _ => 0 := by
  funext i j
  simp only [matOfRows]
  by_cases h : i < k
  · rw [getD_replicate_lt _ _ h]
    exact getD_replicate_zero n j
  · have houter : (List.replicate k (List.replicate n (0 : ℚ))).getD i [] = [] :=
      List.getD_eq_default _ _ (by simpa using not_lt.mp h)
    rw [houter]
    simp

lemma matToRows_zero (r c : ℕ) :
    matToRows r c (fun _ _ => 0) = List.replicate r (List.replicate c 0) := by
  simp [matToRows, List.map_const']

/-- `centerData` from `ica-processing.ts`: subtract each channel's mean
(the source computes all means with `numSamples = data[0].length`). -/
def centerData (data : List (List ℚ)) : List (List ℚ) × List ℚ :=
  let numSamples := (data.getD 0 []).length
  (data.map (fun ch => ch.map (fun v => v - ch.sum / (numSamples : ℚ))),
    data.map (fun ch => ch.sum / (numSamples : ℚ)))

/-- `whitenData` from `ica-processing.ts`: PCA whitening through the
eigendecomposition of the channel covariance matrix.  The `ml-matrix`
`EVD` is an oracle parameter `evd` returning `(realEigenvalues,
eigenvectorMatrix)`; near-zero eigenvalues are clamped to `1e-10` before
the inverse square root (`Math.max(eigenvalues[i], 1e-10)`). -/
def whitenData (M : MathOps) (evd : ℕ → Mat → List ℚ × Mat)
    (data : List (List ℚ)) : List (List ℚ) × Mat :=
  let numChannels := data.length
  let numSamples := (data.getD 0 []).length
  let X := matOfRows data
  let cov : Mat := fun i j =>
    matMul numSamples X (matTranspose X) i j / (numSamples : ℚ)
  let ev := evd numChannels cov
  let D : Mat := fun i j =>
    if i = j ∧ i < numChannels then
      1 / M.sqrt (max ((ev.1).getD i 0) (1 / 10 ^ 10))
    else 0
  let W := matMul numChannels D (matTranspose ev.2)
  (matToRows numChannels numSamples (matMul numChannels W X), W)

/-- The `tanh` nonlinearity `g` of the FastICA iteration. -/
def icaG (M : MathOps) (u : ℚ) : ℚ := M.tanh u

/-- Its derivative `gPrime(u) = 1 - tanh(u)²`. -/
def icaGPrime (M : MathOps) (u : ℚ) : ℚ := 1 - M.tanh u ^ 2

/-- `fastICAIteration` from `ica-processing.ts`: one fixed-point update
`w ← E[X g(wᵀX)] - E[g'(wᵀX)] w`, normalised (`norm || 1`). -/
def fastICAIteration (M : MathOps) (w : List ℚ) (X : List (List ℚ)) : List ℚ :=
  let numSamples := (X.getD 0 []).length
  let numChannels := X.length
  let wX := (List.range numSamples).map
    (fun j => ((List.range numChannels).map
      (fun i => w.getD i 0 * (X.getD i []).getD j 0)).sum)
  let term1 := (List.range numChannels).map
    (fun i => ((List.range numSamples).map
      (fun j => (X.getD i []).getD j 0 * icaG M (wX.getD j 0))).sum /
        (numSamples : ℚ))
  let term2 := ((List.range numSamples).map
    (fun j => icaGPrime M (wX.getD j 0))).sum / (numSamples : ℚ)
  let wNew := (List.range numChannels).map
    (fun i => term1.getD i 0 - term2 * w.getD i 0)
  let norm := M.sqrt ((wNew.map (fun v => v ^ 2)).sum)
  wNew.map (fun v => v / (if norm = 0 then 1 else norm))

/-- The per-component FastICA loop of `removeArtifactsICA` (cap of 100
iterations as fuel, tolerance `1e-6`): iterate, deflate against the
previously extracted rows, renormalise, stop on convergence. -/
def icaLoop (M : MathOps) (X : List (List ℚ)) (prevW : List (List ℚ)) :
    ℕ → List ℚ → List ℚ
  | 0, w => w
  | fuel + 1, w =>
    let numChannels := X.length
    let wNew0 := fastICAIteration M w X
    let wNew1 := prevW.foldl (fun v Wp =>
      let dot := ((List.range numChannels).map
        (fun i => v.getD i 0 * Wp.getD i 0)).sum
      (List.range numChannels).map (fun i => v.getD i 0 - dot * Wp.getD i 0))
      wNew0
    let norm := M.sqrt ((wNew1.map (fun v => v ^ 2)).sum)
    let wNew2 := wNew1.map (fun v => v / (if norm = 0 then 1 else norm))
    let diff := abs (1 - abs (((List.range numChannels).map
      (fun i => w.getD i 0 * wNew2.getD i 0)).sum))
    if diff < 1 / 10 ^ 6 then wNew2 else icaLoop M X prevW fuel wNew2

/-- The unmixing-matrix extraction loop of `removeArtifactsICA`: each
component's row is iterated with the already-extracted rows available for
deflation. -/
def icaUnmix (M : MathOps) (X : List (List ℚ)) (W0 : List (List ℚ)) :
    List (List ℚ) :=
  W0.foldl (fun Wdone w0 => Wdone ++ [icaLoop M X Wdone 100 w0]) []

/-- The per-component artifact test of `detectArtifacts`: excess kurtosis
above 5, or peak amplitude above 6 standard deviations. -/
def isArtifact (M : MathOps) (comp : List ℚ) : Bool :=
  let n := comp.length
  let mean := comp.sum / (n : ℚ)
  let variance := (comp.map (fun v => (v - mean) ^ 2)).sum / (n : ℚ)
  let std := M.sqrt variance
  let fourthMoment := (comp.map (fun v => ((v - mean) / std) ^ 4)).sum / (n : ℚ)
  let kurtosis := fourthMoment - 3
  let maxAmp := (comp.map (fun v => |v|)).foldl max 0
  decide (kurtosis > 5 ∨ maxAmp > std * 6)

/-- `detectArtifacts` from `ica-processing.ts`. -/
def detectArtifacts (M : MathOps) (components : List (List ℚ)) : List ℕ :=
  (List.range components.length).filter
    (fun i => isArtifact M (components.getD i []))

/-- `removeArtifactsICA` from `ica-processing.ts`: pseudo-channels by
circular delays `[0, 5, 10, 15]`, centering, whitening (`evd` oracle),
FastICA with random initial rows `winit` (normalised as in the source),
kurtosis/amplitude artifact rejection, and reconstruction through the
pseudo-inverses (`pinv` oracle) of the unmixing and whitening matrices. -/
def removeArtifactsICA (M : MathOps) (evd : ℕ → Mat → List ℚ × Mat)
    (pinv : Mat → Mat) (winit : List (List ℚ)) (signal : List ℚ)
    (numComponents : ℕ) : ICAResult :=
  let delays : List ℕ := [0, 5, 10, 15]
  let delayedSignals := (delays.take numComponents).map
    (fun d => signal.drop d ++ signal.take d)
  let cd := centerData delayedSignals
  let wd := whitenData M evd cd.1
  let whitened := wd.1
  let numChannels := whitened.length
  let W0 := winit.map (fun w =>
    let norm := M.sqrt ((w.map (fun v => v ^ 2)).sum)
    w.map (fun v => v / norm))
  let Wfinal := icaUnmix M whitened W0
  let numSamples := (whitened.getD 0 []).length
  let components := matToRows numChannels numSamples
    (matMul numChannels (matOfRows Wfinal) (matOfRows whitened))
  let artifactIndices := detectArtifacts M components
  let cleanComponents := components.mapIdx (fun i comp =>
    if i ∈ artifactIndices then List.replicate comp.length (0 : ℚ) else comp)
  let cleanWhitened := matMul numChannels (pinv (matOfRows Wfinal))
    (matOfRows cleanComponents)
  let cleanCentered := matMul numChannels (pinv wd.2) cleanWhitened
  let reconstructed := matToRows numChannels numSamples cleanCentered
  let cleanSignal := (reconstructed.getD 0 []).map (fun v => v + (cd.2).getD 0 0)
  let removedArtifacts := signal.mapIdx (fun i v => v - cleanSignal.getD i 0)
  ⟨cleanSignal, components, removedArtifacts, artifactIndices⟩

lemma replicate_shift (n d : ℕ) (c : ℚ) :
    (List.replicate n c).drop d ++ (List.replicate n c).take d =
      List.replicate n c := by
  rw [List.drop_replicate, List.take_replicate, ← List.replicate_add]
  congr 1
  omega

lemma sum_replicate_div (n : ℕ) (hn : 0 < n) (c : ℚ) :
    (List.replicate n c).sum / ((n : ℕ) : ℚ) = c := by
  rw [List.sum_replicate, nsmul_eq_mul]
  exact mul_div_cancel_left₀ c (by exact_mod_cast hn.ne')

lemma foldl_max_zero (n : ℕ) :
    (List.replicate n (0 : ℚ)).foldl max 0 = 0 := by
  induction n with
  | zero => simp
  | succ n ih => rw [List.replicate_succ, List.foldl_cons, max_self]; exact ih

lemma isArtifact_zero (M : MathOps) (hsqrt0 : M.sqrt 0 = 0) (n : ℕ) :
    isArtifact M (List.replicate n 0) = false := by
  simp [isArtifact, List.map_replicate, List.sum_replicate, hsqrt0,
    foldl_max_zero]
  norm_num

lemma detectArtifacts_zero (M : MathOps) (hsqrt0 : M.sqrt 0 = 0) (k n : ℕ) :
    detectArtifacts M (List.replicate k (List.replicate n 0)) = [] := by
  simp only [detectArtifacts]
  rw [List.filter_eq_nil_iff]
  intro a ha
  have halt : a < k := by simpa using ha
  rw [getD_replicate_lt _ _ halt, isArtifact_zero M hsqrt0 n]
  simp

lemma mapIdx_replicate {α β : Type} (f : ℕ → α → β) (x : α) (k : ℕ) :
    (List.replicate k x).mapIdx f = (List.range k).map (fun i => f i x) := by
  induction k generalizing f with
  | zero => simp
  | succ k ih =>
      rw [List.replicate_succ, List.mapIdx_cons, List.range_succ_eq_map,
        List.map_cons, List.map_map]
      congr 1
      exact ih (fun i => f (i + 1))

lemma centerData_const (n : ℕ) (hn : 0 < n) (c : ℚ) (k : ℕ) (hk : 0 < k) :
    centerData (List.replicate k (List.replicate n c)) =
      (List.replicate k (List.replicate n 0), List.replicate k c) := by
  have hlen : ((List.replicate k (List.replicate n c)).getD 0 []).length = n := by
    rw [getD_replicate_lt _ _ hk]
    simp
  simp only [centerData, hlen]
  rw [Prod.mk.injEq]
  constructor
  · rw [List.map_replicate]
    congr 1
    rw [sum_replicate_div n hn c, List.map_replicate, sub_self]
  · rw [List.map_replicate, sum_replicate_div n hn c]

lemma whitenData_zero_fst (M : MathOps) (evd : ℕ → Mat → List ℚ × Mat)
    (k n : ℕ) (hk : 0 < k) :
    (whitenData M evd (List.replicate k (List.replicate n 0))).1 =
      List.replicate k (List.replicate n 0) := by
  simp only [whitenData, matOfRows_zero]
  rw [matMul_zero_right, matToRows_zero]
  congr 1
  · simp
  · rw [getD_replicate_lt _ _ hk]
    simp

set_option maxHeartbeats 1000000 in
lemma removeArtifactsICA_const (M : MathOps) (hsqrt0 : M.sqrt 0 = 0)
    (evd : ℕ → Mat → List ℚ × Mat) (pinv : Mat → Mat) (winit : List (List ℚ))
    (c : ℚ) (n : ℕ) (hn : 0 < n) :
    removeArtifactsICA M evd pinv winit (List.replicate n c) 4 =
      ⟨List.replicate n c, List.replicate 4 (List.replicate n 0),
        List.replicate n 0, []⟩ := by
  have hds : (([0, 5, 10, 15] : List ℕ).take 4).map
      (fun d => (List.replicate n c).drop d ++ (List.replicate n c).take d) =
      List.replicate 4 (List.replicate n c) := by
    simp [replicate_shift, List.replicate_succ]
    omega
  have hcd := centerData_const n hn c 4 (by norm_num)
  have hwd := whitenData_zero_fst M evd 4 n (by norm_num)
  have hn4 : ((List.replicate 4 (List.replicate n (0 : ℚ))).getD 0 []).length = n := by
    rw [getD_replicate_lt _ _ (by norm_num : (0 : ℕ) < 4)]
    simp
  have hsub : ∀ i ∈ List.range n, c - (List.replicate n c).getD i 0 = 0 := by
    intro i hi
    rw [getD_replicate_lt _ _ (List.mem_range.mp hi), sub_self]
  simp only [removeArtifactsICA]
  rw [hds, hcd]
  simp only []
  rw [hwd]
  simp only [List.length_replicate, hn4]
  rw [matOfRows_zero, matMul_zero_right, matToRows_zero,
    detectArtifacts_zero M hsqrt0 4 n]
  rw [mapIdx_replicate]
  simp only [List.not_mem_nil, if_false, List.map_const', List.length_range]
  rw [matOfRows_zero, matMul_zero_right, matMul_zero_right, matToRows_zero]
  rw [getD_replicate_lt _ _ (by norm_num : (0 : ℕ) < 4),
    getD_replicate_lt _ _ (by norm_num : (0 : ℕ) < 4)]
  rw [List.map_replicate, zero_add]
  rw [mapIdx_replicate, List.map_congr_left hsub]
  rw [List.map_const', List.length_range]

lemma listMean_replicate (n : ℕ) (hn : 0 < n) (c : ℚ) :
    listMean (List.replicate n c) = c := by
  unfold listMean
  rw [List.length_replicate]
  exact sum_replicate_div n hn c

lemma simpleStd_replicate (M : MathOps) (hsqrt0 : M.sqrt 0 = 0) (n : ℕ)
    (hn : 0 < n) (c : ℚ) :
    simpleStd M (List.replicate n c) = 0 := by
  unfold simpleStd
  rw [listMean_replicate n hn c, List.map_replicate]
  simp [hsqrt0]

lemma simpleDev_replicate (M : MathOps) (hsqrt0 : M.sqrt 0 = 0) (n : ℕ)
    (hn : 0 < n) (c : ℚ) (i : ℕ) :
    simpleDev M (List.replicate n c) i = 0 := by
  unfold simpleDev
  rw [simpleStd_replicate M hsqrt0 n hn c, div_zero]

lemma removeArtifactsSimple_const (M : MathOps) (hsqrt0 : M.sqrt 0 = 0)
    (c : ℚ) (n : ℕ) (hn : 0 < n) (t : ℚ) (ht : 0 ≤ t) :
    (removeArtifactsSimple M (List.replicate n c) t).cleanSignal =
        List.replicate n c ∧
      (removeArtifactsSimple M (List.replicate n c) t).removedArtifacts =
        List.replicate n 0 ∧
      (removeArtifactsSimple M (List.replicate n c) t).artifactIndices = [] := by
  have hcond : ∀ i : ℕ, ¬(t < simpleDev M (List.replicate n c) i) := by
    intro i
    rw [simpleDev_replicate M hsqrt0 n hn c i]
    exact not_lt.mpr ht
  refine ⟨?_, ?_, ?_⟩
  · rw [removeArtifactsSimple_clean_eq]
    have h : ∀ i ∈ List.range (List.replicate n c).length,
        simpleCleanAt M (List.replicate n c) t i =
          (List.replicate n c).getD i 0 := by
      intro i hi
      unfold simpleCleanAt
      rw [if_neg (hcond i)]
    rw [List.map_congr_left h]
    exact map_getD_range _
  · rw [removeArtifactsSimple_removed_eq]
    have h : ∀ i ∈ List.range (List.replicate n c).length,
        simpleRemovedAt M (List.replicate n c) t i = 0 := by
      intro i hi
      unfold simpleRemovedAt
      rw [if_neg (hcond i)]
    rw [List.map_congr_left h, List.map_const', List.length_range,
      List.length_replicate]
  · rw [removeArtifactsSimple_indices_eq]
    rw [List.filter_eq_nil_iff]
    intro a ha
    simp [hcond a]

/-- C4 (amended): on a degenerate (constant, in particular all-zero)
signal, `removeArtifactsICA` does not divide by zero — the whitening step
clamps near-zero eigenvalues to `1e-10` and the normalisations guard with
`|| 1` — but it performs no singularity detection and no fallback to the
statistical strategy.  For every eigendecomposition oracle, pseudo-inverse
oracle and initial unmixing matrix it returns the signal unchanged with no
removed artifacts, agreeing with `removeArtifactsSimple` on `cleanSignal`,
`removedArtifacts` and `artifactIndices`, while the `components` field
differs from the statistical strategy's (four zero pseudo-channel
components instead of the original signal). -/
theorem removeArtifactsICA_no_fallback (M : MathOps) (hsqrt0 : M.sqrt 0 = 0)
    (evd : ℕ → Mat → List ℚ × Mat) (pinv : Mat → Mat) (winit : List (List ℚ))
    (c : ℚ) (n : ℕ) (hn : 0 < n) :
    (removeArtifactsICA M evd pinv winit (List.replicate n c) 4).cleanSignal =
        List.replicate n c ∧
      (removeArtifactsICA M evd pinv winit (List.replicate n c) 4).removedArtifacts =
        List.replicate n 0 ∧
      (removeArtifactsICA M evd pinv winit (List.replicate n c) 4).artifactIndices =
        [] ∧
      (removeArtifactsICA M evd pinv winit (List.replicate n c) 4).components =
        List.replicate 4 (List.replicate n 0) ∧
      (removeArtifactsICA M evd pinv winit (List.replicate n c) 4).cleanSignal =
        (removeArtifactsSimple M (List.replicate n c) 3).cleanSignal ∧
      (removeArtifactsICA M evd pinv winit (List.replicate n c) 4).removedArtifacts =
        (removeArtifactsSimple M (List.replicate n c) 3).removedArtifacts ∧
      (removeArtifactsICA M evd pinv winit (List.replicate n c) 4).artifactIndices =
        (removeArtifactsSimple M (List.replicate n c) 3).artifactIndices ∧
      (removeArtifactsICA M evd pinv winit (List.replicate n c) 4).components ≠
        (removeArtifactsSimple M (List.replicate n c) 3).components := by
  have hica := removeArtifactsICA_const M hsqrt0 evd pinv winit c n hn
  obtain ⟨hs1, hs2, hs3⟩ :=
    removeArtifactsSimple_const M hsqrt0 c n hn 3 (by norm_num)
  have hscomp : (removeArtifactsSimple M (List.replicate n c) 3).components =
      [List.replicate n c] := rfl
  rw [hica, hs1, hs2, hs3, hscomp]
  refine ⟨rfl, rfl, rfl, rfl, rfl, rfl, rfl, ?_⟩
  intro h
  have hlen := congrArg List.length h
  simp at hlen

/-- A trivial eigendecomposition oracle used for concrete evaluation. -/
def evdZero : ℕ → Mat → List ℚ × Mat := fun _ _ => ([], fun _ _ => 0)

/-- A trivial pseudo-inverse oracle used for concrete evaluation. -/
def pinvId : Mat → Mat := id

/-- A concrete initial unmixing matrix (identity rows). -/
def winitTest : List (List ℚ) :=
  [[1, 0, 0, 0], [0, 1, 0, 0], [0, 0, 1, 0], [0, 0, 0, 1]]

/-- Witness for the amended C4 at a concrete input: the constant signal
`[1, 1]` with the concrete `Math` instance and oracles. -/
theorem removeArtifactsICA_no_fallback_witness :
    (removeArtifactsICA mTest evdZero pinvId winitTest (List.replicate 2 1) 4).cleanSignal =
        List.replicate 2 1 ∧
      (removeArtifactsICA mTest evdZero pinvId winitTest (List.replicate 2 1) 4).removedArtifacts =
        List.replicate 2 0 ∧
      (removeArtifactsICA mTest evdZero pinvId winitTest (List.replicate 2 1) 4).artifactIndices =
        [] ∧
      (removeArtifactsICA mTest evdZero pinvId winitTest (List.replicate 2 1) 4).components =
        List.replicate 4 (List.replicate 2 0) ∧
      (removeArtifactsICA mTest evdZero pinvId winitTest (List.replicate 2 1) 4).cleanSignal =
        (removeArtifactsSimple mTest (List.replicate 2 1) 3).cleanSignal ∧
      (removeArtifactsICA mTest evdZero pinvId winitTest (List.replicate 2 1) 4).removedArtifacts =
        (removeArtifactsSimple mTest (List.replicate 2 1) 3).removedArtifacts ∧
      (removeArtifactsICA mTest evdZero pinvId winitTest (List.replicate 2 1) 4).artifactIndices =
        (removeArtifactsSimple mTest (List.replicate 2 1) 3).artifactIndices ∧
      (removeArtifactsICA mTest evdZero pinvId winitTest (List.replicate 2 1) 4).components ≠
        (removeArtifactsSimple mTest (List.replicate 2 1) 3).components :=
  removeArtifactsICA_no_fallback mTest (by decide) evdZero pinvId winitTest 1 2
    (by norm_num)

/-- C4 counterexample: on the all-zero (degenerate) signal of length 4,
`removeArtifactsICA` does not return the same result as
`removeArtifactsSimple`: its `components` field holds four zero
pseudo-channel components while the statistical strategy reports the
single original signal, so no fallback to the statistical strategy
happens. -/
theorem removeArtifactsICA_not_simple :
    removeArtifactsICA mTest evdZero pinvId winitTest (List.replicate 4 0) 4 ≠
      removeArtifactsSimple mTest (List.replicate 4 0) 3 := by
  intro h
  have hc := congrArg ICAResult.components h
  rw [removeArtifactsICA_const mTest (by decide) evdZero pinvId winitTest 0 4
    (by norm_num)] at hc
  have hscomp : (removeArtifactsSimple mTest (List.replicate 4 0) 3).components =
      [List.replicate 4 0] := rfl
  rw [hscomp] at hc
  have hlen := congrArg List.length hc
  simp at hlen
